import Mathlib

/-!
Verification of `switch-pip` (cli.py).

A shallow embedding of the configuration-manager core of the `switch-pip`
CLI (`switch-pip/cli.py`): platform path resolution, the INI configuration
read/modify/write cycle around `global.index-url` / `global.trusted-host`,
the capped JSON history log, URL-argument normalization, and backup/restore.

Modelling conventions:
* The parsed INI configuration is named sections holding ordered key/value
  pairs, the object `configparser.ConfigParser` presents.  A configuration
  *file on disk* is either absent, present-but-unparseable, or present
  with parsed content (`ConfContent`); `parseConf`/`serializeConf`
  additionally model the text-level `read`/`write` translation (comments
  dropped, keys lower-cased, canonical `key = value` rendering).
  `configparser.ConfigParser.read` ignores a missing file but raises
  (e.g. `MissingSectionHeaderError`) on unparseable content, and
  `read_pip_conf` wraps it in no `try`/`except`; reading is therefore
  `Except`-valued, with `Except.error ()` standing for a propagated Python
  exception.
* `ConfigParser`'s default `BasicInterpolation` is modelled:
  `interpBeforeSetOk` is `before_set`'s acceptance (`config.set` raises
  `ValueError` otherwise) and `interpBeforeGet` is `before_get`'s
  interpolation, applied where the program calls `config.get`.
* The history file holds JSON; `add_history` guards its *read* with
  `try`/`except` (corrupt JSON becomes `[]`), but valid non-list JSON
  survives the load and crashes the subsequent `append`, so the history
  file state is absent, corrupt, non-list, or a parsed entry list
  (`HistFile`).
* `datetime.datetime.now()` is a clock read; the timestamp string is passed
  in as an explicit parameter `ts`.
* Paths: `os.path.join` is modelled with the separator `/`; `sys.platform`
  and the environment are fields of `OsEnv`.  `get_pip_conf_dir` on darwin
  also consults `os.path.exists`, so `OsEnv` carries that filesystem bit
  explicitly (`fs_mac_dir_exists`).
-/

/-- `DEFAULT_INDEX = "https://pypi.org/simple/"` (cli.py line 27). -/
def DEFAULT_INDEX : String := "https://pypi.org/simple/"

/-- `POPULAR_MIRRORS` (cli.py lines 30-37), as an association list in the
source's insertion order; keys are unique. -/
def POPULAR_MIRRORS : List (String × String) :=
  [("pypi", "https://pypi.org/simple/"),
   ("tsinghua", "https://pypi.tuna.tsinghua.edu.cn/simple/"),
   ("aliyun", "https://mirrors.aliyun.com/pypi/simple/"),
   ("alibaba", "https://mirrors.aliyun.com/pypi/simple/"),
   ("douban", "https://pypi.doubanio.com/simple/"),
   ("testpypi", "https://test.pypi.org/simple/")]

/-- Dictionary lookup in `POPULAR_MIRRORS` (`url.lower() in POPULAR_MIRRORS`
followed by indexing). -/
def mirrorLookup (key : String) : Option String :=
  (POPULAR_MIRRORS.find? (fun p => p.1 == key)).map (fun p => p.2)

/-! ## urllib.parse hostname extraction

`set_index_url` derives the trusted host via
`urllib.parse.urlparse(url).hostname` (cli.py lines 107-109).  We model the
CPython computation for URLs whose scheme is `http` or `https` (the only
inputs that reach `set_index_url` through the CLI's scheme validation):
the netloc is what follows `//` up to the first `/`, `?` or `#`; the
hostname drops the userinfo (up to the last `@`), then either takes the
bracketed part (first `[` to the next `]`) or strips the `:port` suffix,
lowercases, and is `None` when empty. -/

/-! ### Kernel-computable string primitives

Several core `String` functions (`startsWith`, `endsWith`, `toLower`,
`splitOn`, `contains`) are defined through byte-position loops the kernel
cannot evaluate, so the model uses the character-list versions below.
Each agrees with the Python string operation it stands for (`startswith`,
`endswith`, `lower` — on the ASCII inputs this program handles —, slicing,
`split`/`partition`, `in`). -/

/-- Python `s.startswith(p)`. -/
def strStartsWith (s p : String) : Bool := p.data.isPrefixOf s.data

/-- Python `s.endswith(p)`. -/
def strEndsWith (s p : String) : Bool := p.data.isSuffixOf s.data

/-- Python `s.lower()` (ASCII case mapping). -/
def strToLower (s : String) : String := ⟨s.data.map Char.toLower⟩

/-- Python `c in s` for a single character. -/
def strContainsChar (s : String) (c : Char) : Bool := s.data.any (fun x => x == c)

/-- Python `s[n:]` (character slicing). -/
def strDropChars (s : String) (n : Nat) : String := ⟨s.data.drop n⟩

/-- Python `s.split(sep)` for a one-character separator, on character
lists; empty pieces are kept. -/
def splitOnChar (c : Char) : List Char → List (List Char)
  | [] => [[]]
  | x :: xs =>
    let r := splitOnChar c xs
    if x == c then [] :: r
    else (x :: r.headD []) :: r.tail

/-- `splitOnChar` packaged on strings. -/
def strSplitOnChar (s : String) (c : Char) : List String :=
  (splitOnChar c s.data).map (fun l => ⟨l⟩)

/-- Re-join split pieces with the separator (used to model Python
`partition`, which keeps everything after the first separator intact). -/
def joinWithChar (c : Char) : List (List Char) → List Char
  | [] => []
  | [x] => x
  | x :: xs => x ++ c :: joinWithChar c xs

/-- Netloc of an `http://` / `https://` URL: the text after the `//` up to
the first of `/`, `?`, `#`.  URLs with another scheme have no netloc here
(their hostname is irrelevant to this program: callers reject them). -/
def netlocOf (url : String) : String :=
  let rest :=
    if strStartsWith url "http://" then strDropChars url 7
    else if strStartsWith url "https://" then strDropChars url 8
    else ""
  ⟨rest.data.takeWhile (fun c => !(c == '/') && !(c == '?') && !(c == '#'))⟩

/-- `urlparse(url).hostname`, modelled from CPython's `_hostinfo`:
after the last `@`, the bracketed host (between `[` and `]`) or the part
before the first `:`, lowercased; `None` when empty. -/
def hostnameOf (url : String) : Option String :=
  let netloc := netlocOf url
  let hostinfo :=
    match (strSplitOnChar netloc '@').getLast? with
    | some s => s
    | none => netloc
  let hostname :=
    if strContainsChar hostinfo '[' then
      match splitOnChar '[' hostinfo.data with
      | _ :: rest => (⟨(splitOnChar ']' (joinWithChar '[' rest)).headD []⟩ : String)
      | [] => ""
    else (strSplitOnChar hostinfo ':').headD ""
  if hostname = "" then none else some (strToLower hostname)

/-! ## The INI configuration (`configparser` at the section/key level) -/

/-- An in-memory parsed configuration: named sections, each an ordered list
of key/value pairs (keys unique within a section, as `configparser`
guarantees).  Mirrors a `ConfigParser` object. -/
structure INIConfig where
  sections : List (String × List (String × String))
deriving DecidableEq, Repr

/-- Lookup of a key in a section's pair list (the section's option dict). -/
def lookupP (ps : List (String × String)) (k : String) : Option String :=
  (ps.find? (fun p => p.1 == k)).map (fun p => p.2)

/-- `dict[k] = v` on a section's pair list: replace the (first) binding of
`k` in place, else append `(k, v)` at the end — `configparser`'s
insertion-ordered option dict. -/
def setPairs : List (String × String) → String → String → List (String × String)
  | [], k, v => [(k, v)]
  | p :: ps, k, v => if p.1 == k then (k, v) :: ps else p :: setPairs ps k v

/-- Deletion of key `k` from a section's pair list (`remove_option`). -/
def removeP (ps : List (String × String)) (k : String) : List (String × String) :=
  ps.filter (fun p => !(p.1 == k))

/-! ### `BasicInterpolation` (the `ConfigParser` default)

`cli.py` builds `configparser.ConfigParser()` with its default
`BasicInterpolation`, so `config.set` validates values
(`before_set`: after removing `%%` escapes and `%(name)s` references, any
remaining `%` raises `ValueError`) and `config.get` interpolates them
(`before_get`: `%%` becomes `%`, `%(name)s` is replaced by the referenced
option's interpolated value — nesting capped at depth 10 —, a missing
reference or a stray `%` raises).  Both are modelled below. -/

/-- `value.replace("%%", "")`, the first step of
`BasicInterpolation.before_set` (left-to-right, non-overlapping). -/
def stripDoublePercent : List Char → List Char
  | [] => []
  | [c] => [c]
  | c :: d :: rest =>
    if c == '%' && d == '%' then stripDoublePercent rest
    else c :: stripDoublePercent (d :: rest)

/-- Scanner state for recognising `%(name)s` references. -/
inductive PMode
  | top
  | expPar
  | inName0
  | inName
  | expS
deriving DecidableEq, Repr

/-- After the `%%` strip, `before_set` deletes every `%(name)s` reference
(`[^)]+` between the parens) and rejects the value if a `%` remains; a `%`
survives exactly when it does not begin a well-formed reference, so a
single left-to-right scan decides acceptance. -/
def noStrayPercent : PMode → List Char → Bool
  | PMode.top, [] => true
  | PMode.top, c :: rest =>
    if c == '%' then noStrayPercent PMode.expPar rest
    else noStrayPercent PMode.top rest
  | PMode.expPar, [] => false
  | PMode.expPar, c :: rest =>
    if c == '(' then noStrayPercent PMode.inName0 rest else false
  | PMode.inName0, [] => false
  | PMode.inName0, c :: rest =>
    if c == ')' then false else noStrayPercent PMode.inName rest
  | PMode.inName, [] => false
  | PMode.inName, c :: rest =>
    if c == ')' then noStrayPercent PMode.expS rest
    else noStrayPercent PMode.inName rest
  | PMode.expS, [] => false
  | PMode.expS, c :: rest =>
    if c == 's' then noStrayPercent PMode.top rest else false

/-- `BasicInterpolation.before_set` acceptance: `config.set` stores the
value if this holds and raises `ValueError` otherwise. -/
def interpBeforeSetOk (v : String) : Bool :=
  noStrayPercent PMode.top (stripDoublePercent v.data)

/-- One lexical token of a value under `BasicInterpolation`: a literal
character, a `%%` escape, a `%(name)s` reference, or a syntax error
(`InterpolationSyntaxError`). -/
inductive ITok
  | lit (c : Char)
  | esc
  | ref (name : String)
  | bad
deriving DecidableEq, Repr

/-- Tokenizer state while scanning a value for `before_get`. -/
inductive TokMode
  | top
  | pct
  | inName (acc : List Char)
  | close (acc : List Char)
deriving DecidableEq, Repr

/-- Tokenize a value as `BasicInterpolation._interpolate_some` reads it:
`%%` escapes, `%(name)s` references (non-empty name, no `)` inside), and a
`bad` token where CPython raises `InterpolationSyntaxError`. -/
def tokenizeValue : TokMode → List Char → List ITok
  | TokMode.top, [] => []
  | TokMode.top, c :: rest =>
    if c == '%' then tokenizeValue TokMode.pct rest
    else ITok.lit c :: tokenizeValue TokMode.top rest
  | TokMode.pct, [] => [ITok.bad]
  | TokMode.pct, c :: rest =>
    if c == '%' then ITok.esc :: tokenizeValue TokMode.top rest
    else if c == '(' then tokenizeValue (TokMode.inName []) rest
    else [ITok.bad]
  | TokMode.inName _, [] => [ITok.bad]
  | TokMode.inName acc, c :: rest =>
    if c == ')' then
      if acc.isEmpty then [ITok.bad] else tokenizeValue (TokMode.close acc) rest
    else tokenizeValue (TokMode.inName (c :: acc)) rest
  | TokMode.close _, [] => [ITok.bad]
  | TokMode.close acc, c :: rest =>
    if c == 's' then ITok.ref ⟨acc.reverse⟩ :: tokenizeValue TokMode.top rest
    else [ITok.bad]

/-- Interpret one nesting level of tokens; `recur` interprets the value of
a `%`-containing reference one level deeper (CPython recurses only when
the fetched raw value contains a `%`, and name lookups go through
`optionxform`, i.e. lower-casing, against the section's raw options). -/
def interpLevel (ps : List (String × String))
    (recur : List ITok → Except Unit (List Char)) (ts : List ITok) :
    Except Unit (List Char) :=
  ts.foldr
    (fun tok acc =>
      match acc with
      | Except.error e => Except.error e
      | Except.ok r =>
        match tok with
        | ITok.lit c => Except.ok (c :: r)
        | ITok.esc => Except.ok ('%' :: r)
        | ITok.bad => Except.error ()
        | ITok.ref name =>
          match lookupP ps (strToLower name) with
          | none => Except.error ()
          | some w =>
            if strContainsChar w '%' then
              match recur (tokenizeValue TokMode.top w.data) with
              | Except.error e => Except.error e
              | Except.ok wi => Except.ok (wi ++ r)
            else Except.ok (w.data ++ r))
    (Except.ok [])

/-- Token interpretation with the `MAX_INTERPOLATION_DEPTH = 10` cap: at
exhausted depth a further `%`-containing reference raises
`InterpolationDepthError`. -/
def interpTokens (ps : List (String × String)) : Nat → List ITok → Except Unit (List Char)
  | 0 => interpLevel ps (fun _ => Except.error ())
  | d + 1 => interpLevel ps (interpTokens ps d)

/-- `MAX_INTERPOLATION_DEPTH` of `configparser`. -/
def MAX_INTERPOLATION_DEPTH : Nat := 10

/-- `BasicInterpolation.before_get` applied by `config.get`: interpolate
the raw value against the section's raw options. -/
def interpBeforeGet (ps : List (String × String)) (v : String) : Except Unit String :=
  (interpTokens ps MAX_INTERPOLATION_DEPTH (tokenizeValue TokMode.top v.data)).map
    (fun l => ⟨l⟩)

namespace INIConfig

/-- `ConfigParser.has_section`. -/
def has_section (c : INIConfig) (sec : String) : Bool :=
  c.sections.any (fun s => s.1 == sec)

/-- `ConfigParser.add_section`: a fresh empty section appended at the end
(the source only calls it when the section is absent). -/
def add_section (c : INIConfig) (sec : String) : INIConfig :=
  ⟨c.sections ++ [(sec, [])]⟩

/-- Apply `g` to the option list of every section named `sec` (there is at
most one: `configparser` rejects duplicate sections). -/
def mapSection (c : INIConfig) (sec : String)
    (g : List (String × String) → List (String × String)) : INIConfig :=
  ⟨c.sections.map (fun s => (s.1, if s.1 == sec then g s.2 else s.2))⟩

/-- The store step of `ConfigParser.set sec k v` (the source only calls it
on an existing section, so the no-section `NoSectionError` path never
arises).  The full `config.set` first runs `before_set` on the value —
raising `ValueError` on a stray `%` — and only then stores; that
validation is applied via `interpBeforeSetOk` at the call sites in
`set_index_url`, matching where the exception does (index-url, uncaught)
and does not (trusted-host, inside `try`/`except`) propagate. -/
def set (c : INIConfig) (sec k v : String) : INIConfig :=
  c.mapSection sec (fun ps => setPairs ps k v)

/-- `ConfigParser.remove_option sec k`: drop the binding of `k`. -/
def remove_option (c : INIConfig) (sec k : String) : INIConfig :=
  c.mapSection sec (fun ps => removeP ps k)

/-- The option list of section `sec`, when the section exists. -/
def findSection (c : INIConfig) (sec : String) : Option (List (String × String)) :=
  (c.sections.find? (fun s => s.1 == sec)).map (fun s => s.2)

/-- `has_option sec k` plus the *raw stored entry* of `k`: `some v`
exactly when the section exists and holds `k` (the source always guards
`get` with `has_option`, so the `NoOptionError` path never arises).  The
full `config.get` additionally applies `before_get` interpolation to this
raw value; readers below that model `config.get`'s result
(`get_current_index`) compose this with `interpBeforeGet`, and statements
about the stored *entry* (the trusted-host invariants) use it directly —
the two coincide on percent-free values. -/
def get (c : INIConfig) (sec k : String) : Option String :=
  match c.findSection sec with
  | some ps => lookupP ps k
  | none => none

end INIConfig

/-! ### The configuration file at the byte level

`ConfigParser.read` / `ConfigParser.write` translate between file text and
the parsed object; the round trip is *not* the identity on bytes: comments
are dropped, option keys are lower-cased (`optionxform`) and stripped, and
writing renders every option canonically as `key = value`.  The two
functions below model that translation for the fragment these claims
exercise: `[name]` header lines, `key = value` / `key: value` option
lines, full-line `#`/`;` comments and blank lines, with `strict=True`
duplicate rejection; files using leading-whitespace continuation lines are
outside the modelled fragment (`parseConf` rejects them). -/

/-- Python whitespace characters relevant to `strip()` here. -/
def isWsChar (c : Char) : Bool := c == ' ' || c == '\t' || c == '\r'

/-- Python `s.strip()` on a character list. -/
def stripWs (l : List Char) : List Char :=
  ((l.dropWhile isWsChar).reverse.dropWhile isWsChar).reverse

/-- Split an option line at the first `=` or `:` delimiter
(`ConfigParser`'s non-greedy option pattern). -/
def splitKV : List Char → Option (List Char × List Char)
  | [] => none
  | c :: rest =>
    if c == '=' || c == ':' then some ([], rest)
    else (splitKV rest).map (fun p => (c :: p.1, p.2))

/-- Parse one stratum of lines into sections; `cur` is the section under
construction (`none` before any header; an option line there is
`MissingSectionHeaderError`).  Returns `none` where `config.read` raises. -/
def parseConfLines :
    List (List Char) → Option (String × List (String × String)) →
    List (String × List (String × String)) → Option INIConfig
  | [], none, acc => some ⟨acc⟩
  | [], some cur, acc => some ⟨acc ++ [cur]⟩
  | line :: rest, cur, acc =>
    if isWsChar (line.headD ' ') && !(stripWs line).isEmpty then
      none
    else
      let l := stripWs line
      if l.isEmpty then parseConfLines rest cur acc
      else if l.headD ' ' == '#' || l.headD ' ' == ';' then parseConfLines rest cur acc
      else if l.headD ' ' == '[' && l.getLastD ' ' == ']' then
        let name : String := ⟨(l.drop 1).dropLast⟩
        if name = "" then none
        else
          let acc := match cur with
            | some c => acc ++ [c]
            | none => acc
          if acc.any (fun s => s.1 == name) then none
          else parseConfLines rest (some (name, [])) acc
      else
        match splitKV l with
        | none => none
        | some (k0, v0) =>
          let key : String := strToLower ⟨stripWs k0⟩
          let value : String := ⟨stripWs v0⟩
          if key = "" then none
          else
            match cur with
            | none => none
            | some c =>
              if c.2.any (fun p => p.1 == key) then none
              else parseConfLines rest (some (c.1, c.2 ++ [(key, value)])) acc

/-- `ConfigParser.read` on file text (for the modelled fragment):
`none` where CPython raises. -/
def parseConf (text : String) : Option INIConfig :=
  parseConfLines (splitOnChar '\n' text.data) none []

/-- `ConfigParser.write`: each section as `[name]`, options as
`key = value`, a blank line after every section. -/
def serializeConf (c : INIConfig) : String :=
  ⟨c.sections.foldr
    (fun s acc =>
      '[' :: (s.1.data ++ ']' :: '\n' ::
        s.2.foldr (fun p acc2 => p.1.data ++ ' ' :: '=' :: ' ' :: (p.2.data ++ '\n' :: acc2))
          ('\n' :: acc)))
    []⟩

/-- Python `sub in s` (substring test). -/
def infixOf (sub : List Char) : List Char → Bool
  | [] => sub.isEmpty
  | c :: rest => sub.isPrefixOf (c :: rest) || infixOf sub rest

/-- `sub in s` on strings. -/
def strContainsSub (s sub : String) : Bool := infixOf sub.data s.data

/-! ## On-disk state -/

/-- Content of the configuration file on disk: parseable INI text (with its
parse), or text `ConfigParser.read` raises on. -/
inductive ConfContent
  | malformed
  | parsed (c : INIConfig)
deriving DecidableEq, Repr

/-- One history entry `{timestamp, url, is_default}` (cli.py lines 134-138). -/
structure HistEntry where
  timestamp : String
  url : String
  is_default : Bool
deriving DecidableEq, Repr

/-- The history file on disk: absent, present but not valid JSON, present
with valid JSON that is *not* a list (e.g. an object — `json.load`
succeeds, and `history.append` then raises `AttributeError` outside the
`try`/`except`), or a parsed list of entries. -/
inductive HistFile
  | missing
  | corrupt
  | nonList
  | valid (entries : List HistEntry)
deriving DecidableEq, Repr

/-- The files this program touches: `pip.conf` (`none` = file absent), the
history JSON, and the `pip.conf.backup` byte-copy. -/
structure PipState where
  conf : Option ConfContent
  hist : HistFile
  backup : Option ConfContent
deriving DecidableEq, Repr

/-- `read_pip_conf` (cli.py lines 70-76): a missing file yields an empty
parser; `config.read` on an existing file raises on unparseable content
(no `try`/`except` in the source), modelled as `Except.error ()`. -/
def read_pip_conf (conf : Option ConfContent) : Except Unit INIConfig :=
  match conf with
  | none => Except.ok ⟨[]⟩
  | some ConfContent.malformed => Except.error ()
  | some (ConfContent.parsed c) => Except.ok c

/-- `write_pip_conf` (cli.py lines 79-85): serialize the parser back to the
config file (parent directories created as needed). -/
def write_pip_conf (s : PipState) (config : INIConfig) : PipState :=
  { s with conf := some (ConfContent.parsed config) }

/-- `get_current_index` (cli.py lines 88-93): the `config.get` result for
`global.index-url` when section and option exist — the raw stored entry
put through `before_get` interpolation — else `DEFAULT_INDEX`; a read
failure propagates, as does an interpolation error from `get`. -/
def get_current_index (s : PipState) : Except Unit String :=
  match read_pip_conf s.conf with
  | Except.error e => Except.error e
  | Except.ok config =>
    match config.findSection "global" with
    | none => Except.ok DEFAULT_INDEX
    | some ps =>
      match lookupP ps "index-url" with
      | none => Except.ok DEFAULT_INDEX
      | some v => interpBeforeGet ps v

/-- The stored `global.trusted-host` *entry* of the configuration (the
option whose presence `show_current`, cli.py lines 166-169, tests before
reporting it); `none` both when absent and when the file cannot be read.
`show_current`'s printout additionally interpolates the raw value; every
statement below evaluates this on percent-free values, where the raw and
interpolated readings coincide. -/
def trustedHostOf (s : PipState) : Option String :=
  match read_pip_conf s.conf with
  | Except.ok config => config.get "global" "trusted-host"
  | Except.error _ => none

/-- The pure configuration edit inside `set_index_url` (cli.py lines
98-116): ensure the `global` section, set `index-url`, then — when
`trust_host` holds and the URL is not the default — set `trusted-host` to
the URL's hostname, if that hostname is non-empty *and* `config.set`
accepts it (the whole trusted-host block sits in `try`/`except Exception:
pass`, so a `before_set` `ValueError` there is swallowed and the option is
left untouched, exactly like a `None` hostname); when the URL *is* the
default, drop any `trusted-host`.  The `before_set` validation of the
*index-url* value itself happens in `set_index_url`, where its exception
is not caught. -/
def setIndexConf (config : INIConfig) (url : String) (trust_host : Bool) : INIConfig :=
  let config := if config.has_section "global" then config else config.add_section "global"
  let config := config.set "global" "index-url" url
  if trust_host && url != DEFAULT_INDEX then
    match hostnameOf url with
    | some host =>
      if interpBeforeSetOk host then config.set "global" "trusted-host" host else config
    | none => config
  else if url == DEFAULT_INDEX then
    config.remove_option "global" "trusted-host"
  else
    config

/-- `history[-50:]` truncation in `add_history` (cli.py lines 139-142):
append the entry, keep the last 50 when longer. -/
def histPush (history : List HistEntry) (e : HistEntry) : List HistEntry :=
  let history := history ++ [e]
  if history.length > 50 then history.drop (history.length - 50) else history

/-- The history-load step of `add_history` (cli.py lines 125-132): a
missing file or corrupt JSON both give `[]`; valid JSON that is not a list
loads as a value `history.append` cannot extend (`none` here — the
subsequent append raises `AttributeError`). -/
def loadHistory : HistFile → Option (List HistEntry)
  | HistFile.missing => some []
  | HistFile.corrupt => some []
  | HistFile.nonList => none
  | HistFile.valid entries => some entries

/-- `add_history url` (cli.py lines 122-148) with the clock reading passed
in as `ts`: load (or empty), append `{ts, url, url == DEFAULT_INDEX}`,
truncate to the last 50, rewrite the whole file; on a non-list JSON load
the append raises (`Except.error ()`), and nothing is rewritten. -/
def add_history (s : PipState) (url ts : String) : Except Unit PipState :=
  match loadHistory s.hist with
  | none => Except.error ()
  | some history =>
    let entries := histPush history ⟨ts, url, url == DEFAULT_INDEX⟩
    Except.ok { s with hist := HistFile.valid entries }

/-- `set_index_url url trust_host` (cli.py lines 96-119) with the clock
reading passed in as `ts`: read the config (a parse failure propagates);
`config.set("global", "index-url", url)` raises `ValueError` (uncaught)
when `before_set` rejects the URL; otherwise apply the edit, write the
file, then append a history entry (whose own failure also propagates).
The error outcome reports only the propagated exception: a raise from
`add_history` happens after the config write, and no statement below
inspects on-disk state after a raise. -/
def set_index_url (s : PipState) (url ts : String) (trust_host : Bool) :
    Except Unit PipState :=
  match read_pip_conf s.conf with
  | Except.error e => Except.error e
  | Except.ok config =>
    if interpBeforeSetOk url then
      add_history (write_pip_conf s (setIndexConf config url trust_host)) url ts
    else
      Except.error ()

/-- The byte-level view of the configuration part of one `set_index_url`
call: `read_pip_conf` parses the file text, the edit is applied, and
`write_pip_conf` serializes the parsed object back — the whole file is
rewritten from the parse, not patched in place. -/
def pip_conf_rmw (text url : String) (trust_host : Bool) : Except Unit String :=
  match parseConf text with
  | none => Except.error ()
  | some config =>
    if interpBeforeSetOk url then
      Except.ok (serializeConf (setIndexConf config url trust_host))
    else
      Except.error ()

/-- The URL-argument normalization performed by `direct_set` (cli.py lines
337-345) and identically by `interactive_set` (lines 313-321) before
calling `set_index_url`: case-insensitive shortcut expansion through
`POPULAR_MIRRORS`, rejection (`none`) of anything not starting with
`http://` or `https://`, and appending a trailing `/` when absent. -/
def normalize_url_arg (url : String) : Option String :=
  let url :=
    match mirrorLookup (strToLower url) with
    | some u => u
    | none => url
  if strStartsWith url "http://" || strStartsWith url "https://" then
    some (if strEndsWith url "/" then url else url ++ "/")
  else
    none

/-- `backup_config` (cli.py lines 242-256): with no config file, warn and
change nothing (`true` = warning emitted); otherwise byte-copy the config
file to the backup path. -/
def backup_config (s : PipState) : PipState × Bool :=
  match s.conf with
  | none => (s, true)
  | some content => ({ s with backup := some content }, false)

/-- `restore_config` (cli.py lines 259-274): with no backup, report failure
and change nothing (second component `none`); otherwise byte-copy the
backup over the config file and report `get_current_index` of the restored
state. -/
def restore_config (s : PipState) : PipState × Option (Except Unit String) :=
  match s.backup with
  | none => (s, none)
  | some content =>
    let s' := { s with conf := some content }
    (s', some (get_current_index s'))

/-! ## Path resolution -/

/-- The inputs `get_pip_conf_dir` (cli.py lines 40-54) reads: the
environment (`XDG_CONFIG_HOME`, with `""` for unset, and the home directory
`os.path.expanduser "~"` resolves to), the OS identity `sys.platform`, and
— used only on darwin — the `os.path.exists` answer for
`<home>/Library/Application Support/pip` (`fs_mac_dir_exists`), which is
filesystem state, not environment. -/
structure OsEnv where
  xdg_config_home : String
  home : String
  platform : String
  fs_mac_dir_exists : Bool
deriving DecidableEq, Repr

/-- `os.path.join` with one component, separator `/`. -/
def pathJoin (a b : String) : String := a ++ "/" ++ b

/-- `get_pip_conf_dir` (cli.py lines 40-54): a non-empty `XDG_CONFIG_HOME`
wins; on darwin, `~/Library/Application Support/pip` when that directory
exists, else `~/.config/pip`; `~/.config/pip` elsewhere. -/
def get_pip_conf_dir (e : OsEnv) : String :=
  if e.xdg_config_home ≠ "" then pathJoin e.xdg_config_home "pip"
  else if e.platform = "darwin" then
    if e.fs_mac_dir_exists then
      pathJoin (pathJoin (pathJoin e.home "Library") "Application Support") "pip"
    else pathJoin (pathJoin e.home ".config") "pip"
  else pathJoin (pathJoin e.home ".config") "pip"

/-- `get_pip_conf_path` (cli.py lines 57-62): `pip.ini` on win32, `pip.conf`
elsewhere, under the config directory. -/
def get_pip_conf_path (e : OsEnv) : String :=
  if e.platform = "win32" then pathJoin (get_pip_conf_dir e) "pip.ini"
  else pathJoin (get_pip_conf_dir e) "pip.conf"

/-- `get_history_path` (cli.py lines 65-67). -/
def get_history_path (e : OsEnv) : String :=
  pathJoin (get_pip_conf_dir e) "switch-pip-history.json"

/-- The backup path `conf_path + ".backup"` computed in `backup_config` and
`restore_config` (cli.py lines 251, 262). -/
def get_backup_path (e : OsEnv) : String :=
  get_pip_conf_path e ++ ".backup"

/-! ## Sequencing -/

/-- The history entry a `set_index_url` call for `(url, ts)` records. -/
def mkEntry (p : String × String) : HistEntry :=
  ⟨p.2, p.1, p.1 == DEFAULT_INDEX⟩

/-- A sequence of `set_index_url` calls, each given as `(url, ts)`, with
`trust_host = true` (the CLI default); any raised exception aborts. -/
def runSets (s : PipState) : List (String × String) → Except Unit PipState
  | [] => Except.ok s
  | p :: ps =>
    match set_index_url s p.1 p.2 true with
    | Except.error e => Except.error e
    | Except.ok s' => runSets s' ps

/-- The last `n` elements of a list (`l[-n:]`). -/
def lastN (n : Nat) (l : List α) : List α := l.drop (l.length - n)

/-! ## Proof-side normal form for `setIndexConf`

`setIndexConf` first ensures the `global` section and then edits only that
section's option list; the two helpers below name those stages so the edit
can be reasoned about pointwise. -/

/-- The `global`-section guard of `set_index_url` (cli.py lines 100-101). -/
def ensureGlobal (c : INIConfig) : INIConfig :=
  if c.has_section "global" then c else c.add_section "global"

/-- The edit `setIndexConf` performs on the `global` option list. -/
def fGlobal (url : String) (trust_host : Bool)
    (ps : List (String × String)) : List (String × String) :=
  let ps := setPairs ps "index-url" url
  if trust_host && url != DEFAULT_INDEX then
    match hostnameOf url with
    | some host =>
      if interpBeforeSetOk host then setPairs ps "trusted-host" host else ps
    | none => ps
  else if url == DEFAULT_INDEX then
    removeP ps "trusted-host"
  else
    ps

/-! ## Option-list (section dict) lemmas -/

theorem lookupP_nil (k : String) : lookupP [] k = none := rfl

theorem lookupP_cons (p : String × String) (ps : List (String × String)) (k : String) :
    lookupP (p :: ps) k = if p.1 == k then some p.2 else lookupP ps k := by
  by_cases h : p.1 == k <;> simp [lookupP, List.find?_cons, h]

theorem lookupP_setPairs_same (ps : List (String × String)) (k v : String) :
    lookupP (setPairs ps k v) k = some v := by
  induction ps with
  | nil => simp [setPairs, lookupP_cons, lookupP_nil]
  | cons p ps ih =>
    by_cases h : p.1 == k
    · simp [setPairs, h, lookupP_cons]
    · simp [setPairs, h, lookupP_cons, ih]

theorem lookupP_setPairs_ne (ps : List (String × String)) (k v k' : String)
    (hk : k' ≠ k) : lookupP (setPairs ps k v) k' = lookupP ps k' := by
  induction ps with
  | nil =>
    have : (k == k') = false := by simp [beq_iff_eq]; exact fun h => hk h.symm
    simp [setPairs, lookupP_cons, lookupP_nil, this]
  | cons p ps ih =>
    by_cases h : p.1 == k
    · have h1 : p.1 = k := by simpa [beq_iff_eq] using h
      have : (k == k') = false := by simp [beq_iff_eq]; exact fun h => hk h.symm
      simp [setPairs, h, lookupP_cons, this, h1]
    · simp [setPairs, h, lookupP_cons, ih]

theorem setPairs_eq_self (ps : List (String × String)) (k v : String)
    (h : lookupP ps k = some v) : setPairs ps k v = ps := by
  induction ps with
  | nil => simp [lookupP_nil] at h
  | cons p ps ih =>
    by_cases hp : p.1 == k
    · have h1 : p.1 = k := by simpa [beq_iff_eq] using hp
      have h2 : p.2 = v := by simpa [lookupP_cons, hp] using h
      obtain ⟨p1, p2⟩ := p
      simp only at h1 h2
      simp [setPairs, hp, h1, h2]
    · have h' : lookupP ps k = some v := by simpa [lookupP_cons, hp] using h
      simp [setPairs, hp, ih h']

theorem lookupP_removeP_same (ps : List (String × String)) (k : String) :
    lookupP (removeP ps k) k = none := by
  induction ps with
  | nil => simp [removeP, lookupP_nil]
  | cons p ps ih =>
    by_cases h : p.1 == k
    · simpa [removeP, List.filter_cons, h] using ih
    · simpa [removeP, List.filter_cons, h, lookupP_cons] using ih

theorem lookupP_removeP_ne (ps : List (String × String)) (k k' : String)
    (hk : k' ≠ k) : lookupP (removeP ps k) k' = lookupP ps k' := by
  induction ps with
  | nil => simp [removeP, lookupP_nil]
  | cons p ps ih =>
    by_cases h : p.1 == k
    · have h1 : p.1 = k := by simpa [beq_iff_eq] using h
      have h2 : (p.1 == k') = false := by
        simp [beq_iff_eq, h1]
        exact fun hx => hk hx.symm
      have hr : removeP (p :: ps) k = removeP ps k := by
        simp [removeP, List.filter_cons, h]
      rw [hr, lookupP_cons]
      simp [h2, ih]
    · have hr : removeP (p :: ps) k = p :: removeP ps k := by
        simp [removeP, List.filter_cons, h]
      rw [hr, lookupP_cons, lookupP_cons]
      by_cases h2 : p.1 == k'
      · simp [h2]
      · simp [h2, ih]

theorem removeP_removeP (ps : List (String × String)) (k : String) :
    removeP (removeP ps k) k = removeP ps k := by
  simp [removeP, List.filter_filter]

/-! ## Section-level lemmas -/

theorem findSection_mapSection_same (c : INIConfig) (sec : String)
    (g : List (String × String) → List (String × String)) :
    (c.mapSection sec g).findSection sec = (c.findSection sec).map g := by
  obtain ⟨l⟩ := c
  induction l with
  | nil => rfl
  | cons s ss ih =>
    by_cases h : s.1 = sec
    · simp [INIConfig.mapSection, INIConfig.findSection, List.find?_cons, h]
    · simpa [INIConfig.mapSection, INIConfig.findSection, List.find?_cons, h] using ih

theorem findSection_mapSection_ne (c : INIConfig) (sec sec' : String)
    (g : List (String × String) → List (String × String)) (hs : sec' ≠ sec) :
    (c.mapSection sec g).findSection sec' = c.findSection sec' := by
  obtain ⟨l⟩ := c
  induction l with
  | nil => rfl
  | cons s ss ih =>
    have hs' : sec ≠ sec' := Ne.symm hs
    by_cases h : s.1 = sec'
    · have h2 : ¬ s.1 = sec := by
        rw [h]
        exact hs
      simp [INIConfig.mapSection, INIConfig.findSection, List.find?_cons, h, h2, hs, hs']
    · by_cases h2 : s.1 = sec <;>
        simpa [INIConfig.mapSection, INIConfig.findSection, List.find?_cons, h, h2, hs, hs']
          using ih

theorem has_section_mapSection (c : INIConfig) (sec sec' : String)
    (g : List (String × String) → List (String × String)) :
    (c.mapSection sec g).has_section sec' = c.has_section sec' := by
  obtain ⟨l⟩ := c
  induction l with
  | nil => rfl
  | cons s ss ih =>
    by_cases h : s.1 == sec' <;>
      simpa [INIConfig.mapSection, INIConfig.has_section, List.any_cons, h] using ih

theorem findSection_add_section_ne (c : INIConfig) (sec sec' : String) (hs : sec' ≠ sec) :
    (c.add_section sec).findSection sec' = c.findSection sec' := by
  obtain ⟨l⟩ := c
  have h2 : (sec == sec') = false := by
    simp [beq_iff_eq]
    exact fun hx => hs hx.symm
  simp [INIConfig.add_section, INIConfig.findSection, List.find?_append, h2]

theorem findSection_add_section_self (c : INIConfig) (sec : String) :
    (c.add_section sec).findSection sec = some ((c.findSection sec).getD []) := by
  obtain ⟨l⟩ := c
  simp only [INIConfig.add_section, INIConfig.findSection, List.find?_append]
  cases hf : l.find? (fun s => s.1 == sec) with
  | none => simp [List.find?_cons]
  | some s => simp

theorem has_section_eq_isSome (c : INIConfig) (sec : String) :
    c.has_section sec = (c.findSection sec).isSome := by
  obtain ⟨l⟩ := c
  induction l with
  | nil => rfl
  | cons s ss ih =>
    by_cases h : s.1 == sec <;>
      simpa [INIConfig.has_section, INIConfig.findSection, List.any_cons, List.find?_cons, h]
        using ih

theorem has_section_add_section_self (c : INIConfig) (sec : String) :
    (c.add_section sec).has_section sec = true := by
  obtain ⟨l⟩ := c
  simp [INIConfig.add_section, INIConfig.has_section]

theorem mapSection_mapSection (c : INIConfig) (sec : String)
    (g g' : List (String × String) → List (String × String)) :
    (c.mapSection sec g).mapSection sec g' = c.mapSection sec (fun ps => g' (g ps)) := by
  obtain ⟨l⟩ := c
  simp only [INIConfig.mapSection, List.map_map]
  congr 1
  apply List.map_congr_left
  intro s _
  by_cases h : s.1 = sec <;> simp [h]

theorem mapSection_congr (c : INIConfig) (sec : String)
    (g g' : List (String × String) → List (String × String))
    (h : ∀ ps, g ps = g' ps) :
    c.mapSection sec g = c.mapSection sec g' := by
  obtain ⟨l⟩ := c
  simp only [INIConfig.mapSection]
  congr 1
  apply List.map_congr_left
  intro s _
  by_cases hs : s.1 = sec <;> simp [hs, h]

/-! ## `ensureGlobal` and the normal form of `setIndexConf` -/

theorem findSection_ensureGlobal (c : INIConfig) :
    (ensureGlobal c).findSection "global" = some ((c.findSection "global").getD []) := by
  unfold ensureGlobal
  by_cases h : c.has_section "global" = true
  · have hs : (c.findSection "global").isSome := by
      rw [← has_section_eq_isSome]
      exact h
    obtain ⟨ps, hps⟩ := Option.isSome_iff_exists.mp hs
    simp [h, hps]
  · simp [h, findSection_add_section_self]

theorem findSection_ensureGlobal_ne (c : INIConfig) (sec : String) (hs : sec ≠ "global") :
    (ensureGlobal c).findSection sec = c.findSection sec := by
  unfold ensureGlobal
  by_cases h : c.has_section "global" = true
  · simp [h]
  · simp [h, findSection_add_section_ne c "global" sec hs]

theorem has_section_ensureGlobal (c : INIConfig) :
    (ensureGlobal c).has_section "global" = true := by
  unfold ensureGlobal
  by_cases h : c.has_section "global" = true
  · simp [h]
  · simp [h, has_section_add_section_self]

theorem get_eq_lookup_getD (c : INIConfig) (sec k : String) :
    c.get sec k = lookupP ((c.findSection sec).getD []) k := by
  unfold INIConfig.get
  cases c.findSection sec <;> simp [lookupP_nil]

theorem setIndexConf_eq (c : INIConfig) (url : String) (th : Bool) :
    setIndexConf c url th = (ensureGlobal c).mapSection "global" (fGlobal url th) := by
  unfold setIndexConf ensureGlobal fGlobal INIConfig.set INIConfig.remove_option
  by_cases h1 : (th && url != DEFAULT_INDEX) = true
  · cases hh : hostnameOf url with
    | some host =>
      by_cases hg : interpBeforeSetOk host = true
      · simp [h1, hh, hg, mapSection_mapSection]
      · simp [h1, hh, hg]
    | none => simp [h1, hh]
  · by_cases h2 : (url == DEFAULT_INDEX) = true
    · simp [h1, h2, mapSection_mapSection]
    · simp [h1, h2]

/-! ## What `setIndexConf` does to the three kinds of keys -/

theorem get_setIndexConf_indexUrl (c : INIConfig) (url : String) (th : Bool) :
    (setIndexConf c url th).get "global" "index-url" = some url := by
  rw [setIndexConf_eq, get_eq_lookup_getD, findSection_mapSection_same, findSection_ensureGlobal]
  simp only [Option.map_some', Option.getD_some]
  unfold fGlobal
  dsimp only
  by_cases h1 : (th && url != DEFAULT_INDEX) = true
  · rw [if_pos h1]
    cases hh : hostnameOf url with
    | some host =>
      dsimp only
      by_cases hg : interpBeforeSetOk host = true
      · rw [if_pos hg]
        rw [lookupP_setPairs_ne _ _ _ _ (by decide), lookupP_setPairs_same]
      · rw [if_neg hg]
        rw [lookupP_setPairs_same]
    | none =>
      dsimp only
      rw [lookupP_setPairs_same]
  · rw [if_neg h1]
    by_cases h2 : (url == DEFAULT_INDEX) = true
    · rw [if_pos h2]
      rw [lookupP_removeP_ne _ _ _ (by decide), lookupP_setPairs_same]
    · rw [if_neg h2]
      rw [lookupP_setPairs_same]

theorem get_setIndexConf_trustedHost (c : INIConfig) (url : String) :
    (setIndexConf c url true).get "global" "trusted-host" =
      (if url = DEFAULT_INDEX then none
       else match hostnameOf url with
            | some host =>
              if interpBeforeSetOk host then some host
              else c.get "global" "trusted-host"
            | none => c.get "global" "trusted-host") := by
  rw [setIndexConf_eq, get_eq_lookup_getD, findSection_mapSection_same, findSection_ensureGlobal]
  simp only [Option.map_some', Option.getD_some]
  unfold fGlobal
  dsimp only
  by_cases hd : url = DEFAULT_INDEX
  · have hb1 : (true && url != DEFAULT_INDEX) = false := by simp [hd]
    have hb2 : (url == DEFAULT_INDEX) = true := by simp [hd]
    rw [if_neg (by simp [hb1]), if_pos hb2, if_pos hd]
    rw [lookupP_removeP_same]
  · have hb1 : (true && url != DEFAULT_INDEX) = true := by simp [bne_iff_ne, hd]
    rw [if_pos hb1, if_neg hd]
    cases hh : hostnameOf url with
    | some host =>
      dsimp only
      by_cases hg : interpBeforeSetOk host = true
      · rw [if_pos hg, if_pos hg, lookupP_setPairs_same]
      · rw [if_neg hg, if_neg hg,
          lookupP_setPairs_ne _ _ _ _ (by decide), get_eq_lookup_getD]
    | none =>
      dsimp only
      rw [lookupP_setPairs_ne _ _ _ _ (by decide), get_eq_lookup_getD]

theorem findSection_setIndexConf_ne (c : INIConfig) (url : String) (th : Bool)
    (sec : String) (hs : sec ≠ "global") :
    (setIndexConf c url th).findSection sec = c.findSection sec := by
  rw [setIndexConf_eq, findSection_mapSection_ne _ _ _ _ hs, findSection_ensureGlobal_ne c sec hs]

theorem get_setIndexConf_other (c : INIConfig) (url : String) (th : Bool) (k : String)
    (h1 : k ≠ "index-url") (h2 : k ≠ "trusted-host") :
    (setIndexConf c url th).get "global" k = c.get "global" k := by
  rw [setIndexConf_eq, get_eq_lookup_getD, findSection_mapSection_same, findSection_ensureGlobal]
  simp only [Option.map_some', Option.getD_some]
  rw [get_eq_lookup_getD]
  unfold fGlobal
  dsimp only
  by_cases hb1 : (th && url != DEFAULT_INDEX) = true
  · rw [if_pos hb1]
    cases hh : hostnameOf url with
    | some host =>
      dsimp only
      by_cases hg : interpBeforeSetOk host = true
      · rw [if_pos hg, lookupP_setPairs_ne _ _ _ _ h2, lookupP_setPairs_ne _ _ _ _ h1]
      · rw [if_neg hg, lookupP_setPairs_ne _ _ _ _ h1]
    | none =>
      dsimp only
      rw [lookupP_setPairs_ne _ _ _ _ h1]
  · rw [if_neg hb1]
    by_cases hb2 : (url == DEFAULT_INDEX) = true
    · rw [if_pos hb2]
      rw [lookupP_removeP_ne _ _ _ h2, lookupP_setPairs_ne _ _ _ _ h1]
    · rw [if_neg hb2]
      rw [lookupP_setPairs_ne _ _ _ _ h1]

theorem fGlobal_idem (url : String) (ps : List (String × String)) :
    fGlobal url true (fGlobal url true ps) = fGlobal url true ps := by
  unfold fGlobal
  dsimp only
  by_cases hd : url = DEFAULT_INDEX
  · have hb1 : ¬ ((true && url != DEFAULT_INDEX) = true) := by simp [hd]
    have hb2 : (url == DEFAULT_INDEX) = true := by simp [hd]
    rw [if_neg hb1, if_pos hb2, if_neg hb1, if_pos hb2]
    have hq : lookupP (removeP (setPairs ps "index-url" url) "trusted-host") "index-url"
        = some url := by
      rw [lookupP_removeP_ne _ _ _ (by decide), lookupP_setPairs_same]
    rw [setPairs_eq_self _ _ _ hq, removeP_removeP]
  · have hb1 : (true && url != DEFAULT_INDEX) = true := by simp [bne_iff_ne, hd]
    rw [if_pos hb1, if_pos hb1]
    cases hh : hostnameOf url with
    | some host =>
      dsimp only
      by_cases hg : interpBeforeSetOk host = true
      · rw [if_pos hg, if_pos hg]
        have hq1 : lookupP (setPairs (setPairs ps "index-url" url) "trusted-host" host)
            "index-url" = some url := by
          rw [lookupP_setPairs_ne _ _ _ _ (by decide), lookupP_setPairs_same]
        rw [setPairs_eq_self _ _ _ hq1]
        have hq2 : lookupP (setPairs (setPairs ps "index-url" url) "trusted-host" host)
            "trusted-host" = some host := by
          rw [lookupP_setPairs_same]
        rw [setPairs_eq_self _ _ _ hq2]
      · rw [if_neg hg, if_neg hg]
        rw [setPairs_eq_self _ _ _ (lookupP_setPairs_same ps "index-url" url)]
    | none =>
      dsimp only
      rw [setPairs_eq_self _ _ _ (lookupP_setPairs_same ps "index-url" url)]

theorem ensureGlobal_of_has_section (c : INIConfig)
    (h : c.has_section "global" = true) : ensureGlobal c = c := by
  unfold ensureGlobal
  rw [if_pos h]

theorem setIndexConf_idem (c : INIConfig) (url : String) :
    setIndexConf (setIndexConf c url true) url true = setIndexConf c url true := by
  rw [setIndexConf_eq c, setIndexConf_eq]
  have h1 : ensureGlobal ((ensureGlobal c).mapSection "global" (fGlobal url true)) =
      (ensureGlobal c).mapSection "global" (fGlobal url true) := by
    apply ensureGlobal_of_has_section
    rw [has_section_mapSection]
    exact has_section_ensureGlobal c
  rw [h1, mapSection_mapSection]
  exact mapSection_congr _ _ _ _ (fun ps => fGlobal_idem url ps)

/-! ## History lemmas -/

theorem histPush_eq_lastN (h : List HistEntry) (e : HistEntry) :
    histPush h e = lastN 50 (h ++ [e]) := by
  unfold histPush lastN
  dsimp only
  by_cases hl : (h ++ [e]).length > 50
  · rw [if_pos hl]
  · rw [if_neg hl]
    have h0 : (h ++ [e]).length - 50 = 0 := by omega
    rw [h0, List.drop_zero]

theorem lastN_length {α : Type} (n : Nat) (l : List α) :
    (lastN n l).length = min n l.length := by
  unfold lastN
  rw [List.length_drop]
  omega

theorem lastN_append_left {α : Type} (n : Nat) (a b : List α) (hb : n ≤ b.length) :
    lastN n (a ++ b) = lastN n b := by
  unfold lastN
  have h1 : (a ++ b).length - n = a.length + (b.length - n) := by
    rw [List.length_append]
    omega
  rw [h1, List.drop_append]

theorem lastN_lastN_append {α : Type} (n : Nat) (a b : List α) :
    lastN n (lastN n a ++ b) = lastN n (a ++ b) := by
  unfold lastN
  rw [← List.drop_append_of_le_length (Nat.sub_le a.length n)]
  rw [List.drop_drop]
  congr 1
  simp only [List.length_append, List.length_drop]
  omega

theorem foldl_histPush (e : HistEntry) (es : List HistEntry) (h : List HistEntry) :
    List.foldl histPush h (e :: es) = lastN 50 (h ++ e :: es) := by
  induction es generalizing h e with
  | nil =>
    rw [List.foldl_cons, List.foldl_nil, histPush_eq_lastN]
  | cons e2 es ih =>
    rw [List.foldl_cons, ih e2 (histPush h e), histPush_eq_lastN, lastN_lastN_append]
    rw [List.append_assoc]
    rfl

/-! ## Interpolation lemmas: percent-free values pass through unchanged -/

theorem tokenizeValue_of_noPct (l : List Char)
    (h : l.any (fun c => c == '%') = false) :
    tokenizeValue TokMode.top l = l.map ITok.lit := by
  induction l with
  | nil => rfl
  | cons c rest ih =>
    rw [List.any_cons, Bool.or_eq_false_iff] at h
    obtain ⟨hc, hrest⟩ := h
    rw [show tokenizeValue TokMode.top (c :: rest) =
        (if c == '%' then tokenizeValue TokMode.pct rest
         else ITok.lit c :: tokenizeValue TokMode.top rest) from rfl]
    simp only [hc, Bool.false_eq_true, if_false]
    rw [ih hrest, List.map_cons]

theorem interpLevel_lits (ps : List (String × String))
    (recur : List ITok → Except Unit (List Char)) (l : List Char) :
    interpLevel ps recur (l.map ITok.lit) = Except.ok l := by
  induction l with
  | nil => rfl
  | cons c rest ih =>
    unfold interpLevel at ih ⊢
    rw [List.map_cons, List.foldr_cons, ih]

theorem interpTokens_lits (ps : List (String × String)) (d : Nat) (l : List Char) :
    interpTokens ps d (l.map ITok.lit) = Except.ok l := by
  cases d with
  | zero => exact interpLevel_lits ps _ l
  | succ d => exact interpLevel_lits ps _ l

theorem interpBeforeGet_of_noPct (ps : List (String × String)) (v : String)
    (h : strContainsChar v '%' = false) : interpBeforeGet ps v = Except.ok v := by
  obtain ⟨data⟩ := v
  unfold strContainsChar at h
  unfold interpBeforeGet
  rw [tokenizeValue_of_noPct data h, interpTokens_lits]
  rfl

/-! ## The shape of a completed `set_index_url` call -/

theorem findSection_setIndexConf_global (c : INIConfig) (url : String) (th : Bool) :
    (setIndexConf c url th).findSection "global"
      = some (fGlobal url th ((c.findSection "global").getD [])) := by
  rw [setIndexConf_eq, findSection_mapSection_same, findSection_ensureGlobal]
  rfl

theorem lookupP_fGlobal_indexUrl (url : String) (th : Bool)
    (ps : List (String × String)) :
    lookupP (fGlobal url th ps) "index-url" = some url := by
  unfold fGlobal
  dsimp only
  by_cases h1 : (th && url != DEFAULT_INDEX) = true
  · rw [if_pos h1]
    cases hh : hostnameOf url with
    | some host =>
      dsimp only
      by_cases hg : interpBeforeSetOk host = true
      · rw [if_pos hg, lookupP_setPairs_ne _ _ _ _ (by decide), lookupP_setPairs_same]
      · rw [if_neg hg, lookupP_setPairs_same]
    | none =>
      dsimp only
      rw [lookupP_setPairs_same]
  · rw [if_neg h1]
    by_cases h2 : (url == DEFAULT_INDEX) = true
    · rw [if_pos h2, lookupP_removeP_ne _ _ _ (by decide), lookupP_setPairs_same]
    · rw [if_neg h2, lookupP_setPairs_same]

theorem set_index_url_ok (s : PipState) (url ts : String) (th : Bool) (s' : PipState)
    (hset : set_index_url s url ts th = Except.ok s') :
    ∃ c h0, read_pip_conf s.conf = Except.ok c ∧
      interpBeforeSetOk url = true ∧
      loadHistory s.hist = some h0 ∧
      s' = ⟨some (ConfContent.parsed (setIndexConf c url th)),
            HistFile.valid (histPush h0 ⟨ts, url, url == DEFAULT_INDEX⟩),
            s.backup⟩ := by
  unfold set_index_url at hset
  cases hcr : read_pip_conf s.conf with
  | error e =>
    rw [hcr] at hset
    exact Except.noConfusion hset
  | ok c =>
    rw [hcr] at hset
    dsimp only at hset
    by_cases hok : interpBeforeSetOk url = true
    · rw [if_pos hok] at hset
      unfold add_history at hset
      cases hl : loadHistory (write_pip_conf s (setIndexConf c url th)).hist with
      | none =>
        rw [hl] at hset
        exact Except.noConfusion hset
      | some h0 =>
        rw [hl] at hset
        exact ⟨c, h0, rfl, hok, hl, (Except.ok.inj hset).symm⟩
    · rw [if_neg hok] at hset
      exact Except.noConfusion hset

theorem runSets_hist (ps : List (String × String)) (s s' : PipState)
    (h0 : List HistEntry) (hrun : runSets s ps = Except.ok s')
    (hload : loadHistory s.hist = some h0) :
    loadHistory s'.hist = some (List.foldl histPush h0 (ps.map mkEntry)) := by
  induction ps generalizing s h0 with
  | nil =>
    have hs : s' = s := (Except.ok.inj hrun).symm
    subst hs
    rw [hload]
    rfl
  | cons p ps ih =>
    unfold runSets at hrun
    cases hs1 : set_index_url s p.1 p.2 true with
    | error e =>
      rw [hs1] at hrun
      exact Except.noConfusion hrun
    | ok s1 =>
      rw [hs1] at hrun
      obtain ⟨c, h1, hcr, hok, hl, hshape⟩ := set_index_url_ok s p.1 p.2 true s1 hs1
      have hh : h1 = h0 := Option.some.inj (hl.symm.trans hload)
      subst hh
      have hl1 : loadHistory s1.hist = some (histPush h1 (mkEntry p)) := by
        rw [hshape]
        rfl
      have := ih s1 (histPush h1 (mkEntry p)) hrun hl1
      rw [this, List.map_cons, List.foldl_cons]

/-! ## Claim theorems -/

/-- C5 counterexample: on a configuration file that exists but is not
parseable INI (for instance a file whose whole text is
`no section header`, on which `configparser` raises
`MissingSectionHeaderError`), `get_current_index` does *not* return the
default URL: the parse error propagates out of `read_pip_conf`, which has
no `try`/`except` (cli.py lines 70-76), so the claim's malformed-file half
is false on the code. -/
theorem C5_counterexample :
    get_current_index ⟨some ConfContent.malformed, HistFile.missing, none⟩ =
        Except.error () ∧
      get_current_index ⟨some ConfContent.malformed, HistFile.missing, none⟩ ≠
        Except.ok DEFAULT_INDEX :=
  ⟨rfl, fun h => Except.noConfusion h⟩

/-- C5 (amended): `get_current_index` returns the built-in default URL with
no error when the configuration file is *missing*; when the file exists but
is malformed, the `configparser` parse error propagates (the code raises
rather than treating the file as empty). -/
theorem C5_missing_file_amended (s : PipState) :
    (s.conf = none → get_current_index s = Except.ok DEFAULT_INDEX) ∧
    (s.conf = some ConfContent.malformed → get_current_index s = Except.error ()) := by
  constructor
  · intro h
    unfold get_current_index
    rw [h]
    rfl
  · intro h
    unfold get_current_index
    rw [h]
    rfl

/-- Witness for C5 (amended) at a fresh state and at a malformed-file
state. -/
theorem C5_missing_file_amended_witness :
    get_current_index ⟨none, HistFile.missing, none⟩ = Except.ok DEFAULT_INDEX ∧
    get_current_index ⟨some ConfContent.malformed, HistFile.corrupt, none⟩ =
      Except.error () :=
  ⟨(C5_missing_file_amended ⟨none, HistFile.missing, none⟩).1 rfl,
   (C5_missing_file_amended ⟨some ConfContent.malformed, HistFile.corrupt, none⟩).2 rfl⟩

/-- C8: `backup_config` with no config file creates no backup and only
warns (modelled by the warning flag `true` and an unchanged state — the
functions are total, so neither path crashes); `restore_config` with no
backup reports failure (`none`) and changes nothing; a successful restore
byte-copies the backup content over the config file and reports
`get_current_index` of the restored state. -/
theorem C8_backup_restore (s1 s2 s3 : PipState) (b : ConfContent)
    (h1 : s1.conf = none) (h2 : s2.backup = none) (h3 : s3.backup = some b) :
    backup_config s1 = (s1, true) ∧
    restore_config s2 = (s2, none) ∧
    (restore_config s3).1 = { s3 with conf := some b } ∧
    (restore_config s3).2 = some (get_current_index { s3 with conf := some b }) := by
  refine ⟨?_, ?_, ?_, ?_⟩
  · unfold backup_config
    rw [h1]
  · unfold restore_config
    rw [h2]
  · unfold restore_config
    rw [h3]
  · unfold restore_config
    rw [h3]

/-- Witness for C8 at concrete states. -/
theorem C8_backup_restore_witness :
    backup_config ⟨none, HistFile.missing, some ConfContent.malformed⟩ =
        (⟨none, HistFile.missing, some ConfContent.malformed⟩, true) ∧
    restore_config ⟨none, HistFile.missing, none⟩ = (⟨none, HistFile.missing, none⟩, none) ∧
    (restore_config ⟨none, HistFile.missing, some (ConfContent.parsed ⟨[]⟩)⟩).1 =
        ⟨some (ConfContent.parsed ⟨[]⟩), HistFile.missing, some (ConfContent.parsed ⟨[]⟩)⟩ ∧
    (restore_config ⟨none, HistFile.missing, some (ConfContent.parsed ⟨[]⟩)⟩).2 =
        some (get_current_index
          ⟨some (ConfContent.parsed ⟨[]⟩), HistFile.missing, some (ConfContent.parsed ⟨[]⟩)⟩) := by
  obtain ⟨a, b, c, d⟩ :=
    C8_backup_restore ⟨none, HistFile.missing, some ConfContent.malformed⟩
      ⟨none, HistFile.missing, none⟩ ⟨none, HistFile.missing, some (ConfContent.parsed ⟨[]⟩)⟩
      (ConfContent.parsed ⟨[]⟩) rfl rfl rfl
  exact ⟨a, b, c, d⟩

/-- C10: for the non-default URL `http:///simple/`, which passes the
callers' scheme check but has an empty hostname, `set_index_url` updates
`global.index-url` to it while leaving a previously stored
`global.trusted-host` unchanged, so the trusted host can refer to a host
unrelated to the index URL (cli.py lines 105-116). -/
theorem C10_empty_hostname_keeps_stale_trusted_host (s : PipState) (c : INIConfig)
    (hconf : s.conf = some (ConfContent.parsed c)) (host0 ts : String)
    (hth : c.get "global" "trusted-host" = some host0) (s' : PipState)
    (hset : set_index_url s "http:///simple/" ts true = Except.ok s') :
    strStartsWith "http:///simple/" "http://" = true ∧
    "http:///simple/" ≠ DEFAULT_INDEX ∧
    hostnameOf "http:///simple/" = none ∧
    get_current_index s' = Except.ok "http:///simple/" ∧
    trustedHostOf s' = some host0 := by
  obtain ⟨c1, h0, hcr, hok, hl, hs'⟩ := set_index_url_ok s "http:///simple/" ts true s' hset
  rw [hconf] at hcr
  have hc1 : c1 = c := (Except.ok.inj hcr).symm
  rw [hc1] at hs'
  subst hs'
  refine ⟨rfl, by decide, rfl, ?_, ?_⟩
  · unfold get_current_index
    dsimp only [read_pip_conf]
    rw [findSection_setIndexConf_global]
    dsimp only
    rw [lookupP_fGlobal_indexUrl]
    dsimp only
    exact interpBeforeGet_of_noPct _ "http:///simple/" (by decide)
  · show (setIndexConf c "http:///simple/" true).get "global" "trusted-host" = some host0
    rw [get_setIndexConf_trustedHost]
    rw [if_neg (by decide : ¬ ("http:///simple/" = DEFAULT_INDEX))]
    exact hth

/-- Witness for C10 at a state whose trusted host is `old.example.com`. -/
theorem C10_empty_hostname_keeps_stale_trusted_host_witness :
    strStartsWith "http:///simple/" "http://" = true ∧
    "http:///simple/" ≠ DEFAULT_INDEX ∧
    hostnameOf "http:///simple/" = none ∧
    get_current_index
      ⟨some (ConfContent.parsed
          ⟨[("global", [("index-url", "http:///simple/"),
                        ("trusted-host", "old.example.com")])]⟩),
        HistFile.valid [⟨"t", "http:///simple/", false⟩], none⟩
      = Except.ok "http:///simple/" ∧
    trustedHostOf
      ⟨some (ConfContent.parsed
          ⟨[("global", [("index-url", "http:///simple/"),
                        ("trusted-host", "old.example.com")])]⟩),
        HistFile.valid [⟨"t", "http:///simple/", false⟩], none⟩
      = some "old.example.com" :=
  C10_empty_hostname_keeps_stale_trusted_host
    ⟨some (ConfContent.parsed
        ⟨[("global", [("index-url", "http://old.example.com/simple/"),
                      ("trusted-host", "old.example.com")])]⟩),
      HistFile.missing, none⟩
    ⟨[("global", [("index-url", "http://old.example.com/simple/"),
                  ("trusted-host", "old.example.com")])]⟩
    rfl "old.example.com" "t" rfl _ rfl

/-- C4 counterexample: the claim asserts byte-for-byte preservation of
unrecognized content, but the cycle is parse-then-reserialize.  On the
concrete file below, the `[install]` section — content `set_index_url`
never touches — loses its comment line `# note` and has its key `User`
lower-cased to `user` by `optionxform`, so its bytes are not preserved. -/
theorem C4_counterexample :
    pip_conf_rmw "[install]\nUser = true\n# note\n\n[global]\nindex-url = http://old/\n"
        "http://h/" true
      = Except.ok
          "[install]\nuser = true\n\n[global]\nindex-url = http://h/\ntrusted-host = h\n\n" ∧
    strContainsSub "[install]\nUser = true\n# note\n\n[global]\nindex-url = http://old/\n"
        "# note" = true ∧
    strContainsSub "[install]\nUser = true\n# note\n\n[global]\nindex-url = http://old/\n"
        "User" = true ∧
    strContainsSub "[install]\nuser = true\n\n[global]\nindex-url = http://h/\ntrusted-host = h\n\n"
        "# note" = false ∧
    strContainsSub "[install]\nuser = true\n\n[global]\nindex-url = http://h/\ntrusted-host = h\n\n"
        "User" = false :=
  ⟨rfl, rfl, rfl, rfl, rfl⟩

/-- C4 (amended): the read-modify-write cycle of `set_index_url` preserves
every section other than `global` as a parsed entity (its whole option
list, order included) and every `global` key other than `index-url` and
`trusted-host`; the file bytes themselves are re-serialized canonically,
so the preservation is at the section/key level, not byte-for-byte. -/
theorem C4_frame (s : PipState) (c : INIConfig) (url ts : String) (th : Bool) (s' : PipState)
    (hread : read_pip_conf s.conf = Except.ok c)
    (hset : set_index_url s url ts th = Except.ok s') :
    ∃ c', s'.conf = some (ConfContent.parsed c') ∧
      (∀ sec, sec ≠ "global" → c'.findSection sec = c.findSection sec) ∧
      (∀ k, k ≠ "index-url" → k ≠ "trusted-host" →
        c'.get "global" k = c.get "global" k) := by
  obtain ⟨c1, h0, hcr, hok, hl, hs'⟩ := set_index_url_ok s url ts th s' hset
  have hc1 : c1 = c := (Except.ok.inj (hread.symm.trans hcr)).symm
  rw [hc1] at hs'
  refine ⟨setIndexConf c url th, ?_, ?_, ?_⟩
  · rw [hs']
  · intro sec hsec
    exact findSection_setIndexConf_ne c url th sec hsec
  · intro k hk1 hk2
    exact get_setIndexConf_other c url th k hk1 hk2

/-- Witness for C4 (amended) at a config with a foreign section and a
foreign `global` key. -/
theorem C4_frame_witness :
    ∃ c', (⟨some (ConfContent.parsed
        ⟨[("install", [("user", "true")]),
          ("global", [("timeout", "5"), ("index-url", "http://h/"),
                      ("trusted-host", "h")])]⟩),
        HistFile.valid [⟨"t", "http://h/", false⟩], none⟩ : PipState).conf
        = some (ConfContent.parsed c') ∧
      (∀ sec, sec ≠ "global" → c'.findSection sec =
        INIConfig.findSection ⟨[("install", [("user", "true")]),
          ("global", [("timeout", "5")])]⟩ sec) ∧
      (∀ k, k ≠ "index-url" → k ≠ "trusted-host" →
        c'.get "global" k =
          INIConfig.get ⟨[("install", [("user", "true")]),
            ("global", [("timeout", "5")])]⟩ "global" k) :=
  C4_frame
    ⟨some (ConfContent.parsed
        ⟨[("install", [("user", "true")]), ("global", [("timeout", "5")])]⟩),
      HistFile.missing, none⟩
    ⟨[("install", [("user", "true")]), ("global", [("timeout", "5")])]⟩
    "http://h/" "t" true _ rfl rfl

/-- C3 counterexample: two ways the claim fails on the code.  A history
file holding valid JSON that is not a list (e.g. `{}`) survives the
guarded `json.load`, and `history.append` then raises `AttributeError`
uncaught — no entry is pushed and nothing is rewritten.  And the 60-call
consequence fails for sequences containing a stray-percent URL, on which
`config.set` raises `ValueError` and the sequence aborts. -/
theorem C3_counterexample :
    set_index_url ⟨none, HistFile.nonList, none⟩ "http://h/" "t" true
        = Except.error () ∧
    set_index_url ⟨none, HistFile.missing, none⟩ "http://h/a%20b/" "t" true
        = Except.error () :=
  ⟨rfl, rfl⟩

/-- C3 (amended): an append from a history file that loads as a list
(missing or corrupt JSON load as the empty list) pushes the new entry at
the end, truncates to the last 50 and rewrites the whole file — a
valid-non-list JSON history file instead raises; consequently, after 60
sequential `set_index_url` calls that all complete, the history holds
exactly the 50 most recent entries, oldest first. -/
theorem C3_history_cap (s : PipState) (url ts : String) (s1 : PipState)
    (h0 : List HistEntry) (hload : loadHistory s.hist = some h0)
    (hset : set_index_url s url ts true = Except.ok s1)
    (ups : List (String × String)) (h60 : ups.length = 60)
    (s' : PipState) (hrun : runSets s ups = Except.ok s') :
    s1.hist = HistFile.valid (lastN 50 (h0 ++ [⟨ts, url, url == DEFAULT_INDEX⟩])) ∧
    loadHistory s'.hist = some ((ups.map mkEntry).drop 10) ∧
    (loadHistory s'.hist).map List.length = some 50 := by
  obtain ⟨c, h0x, hcr, hok, hlx, hs1⟩ := set_index_url_ok s url ts true s1 hset
  have hx : h0x = h0 := Option.some.inj (hlx.symm.trans hload)
  subst hx
  have hfold := runSets_hist ups s s' h0x hrun hload
  have hlen : (ups.map mkEntry).length = 60 := by
    rw [List.length_map, h60]
  have heq : loadHistory s'.hist = some ((ups.map mkEntry).drop 10) := by
    rw [hfold]
    congr 1
    cases hes : ups.map mkEntry with
    | nil =>
      rw [hes] at hlen
      exact absurd hlen (by decide)
    | cons e rest =>
      rw [hes] at hlen
      rw [foldl_histPush, lastN_append_left 50 _ _ (by rw [hlen]; omega)]
      unfold lastN
      rw [hlen]
  refine ⟨?_, heq, ?_⟩
  · rw [hs1]
    show HistFile.valid (histPush h0x ⟨ts, url, url == DEFAULT_INDEX⟩) = _
    rw [histPush_eq_lastN]
  · rw [heq, Option.map_some']
    congr 1
    rw [List.length_drop, List.length_map, h60]

set_option maxRecDepth 8192 in
/-- Witness for C3 (amended): 60 sets of `http://h/` from a fresh state. -/
theorem C3_history_cap_witness :
    (⟨some (ConfContent.parsed
        ⟨[("global", [("index-url", "http://h/"), ("trusted-host", "h")])]⟩),
      HistFile.valid [⟨"t", "http://h/", false⟩], none⟩ : PipState).hist =
      HistFile.valid (lastN 50 ([] ++ [⟨"t", "http://h/", false⟩])) ∧
    loadHistory (⟨some (ConfContent.parsed
        ⟨[("global", [("index-url", "http://h/"), ("trusted-host", "h")])]⟩),
      HistFile.valid (List.replicate 50 ⟨"t", "http://h/", false⟩), none⟩ : PipState).hist =
      some (((List.replicate 60 ("http://h/", "t")).map mkEntry).drop 10) ∧
    (loadHistory (⟨some (ConfContent.parsed
        ⟨[("global", [("index-url", "http://h/"), ("trusted-host", "h")])]⟩),
      HistFile.valid (List.replicate 50 ⟨"t", "http://h/", false⟩), none⟩ : PipState).hist).map
        List.length = some 50 :=
  C3_history_cap ⟨none, HistFile.missing, none⟩ "http://h/" "t"
    ⟨some (ConfContent.parsed
        ⟨[("global", [("index-url", "http://h/"), ("trusted-host", "h")])]⟩),
      HistFile.valid [⟨"t", "http://h/", false⟩], none⟩
    [] rfl rfl
    (List.replicate 60 ("http://h/", "t")) (by decide)
    ⟨some (ConfContent.parsed
        ⟨[("global", [("index-url", "http://h/"), ("trusted-host", "h")])]⟩),
      HistFile.valid (List.replicate 50 ⟨"t", "http://h/", false⟩), none⟩ rfl

/-- C6: before `set_index_url`, `direct_set` / `interactive_set` normalize
the argument: a shortcut is expanded case-insensitively through the mirror
table (`tsinghua` gives the Tsinghua URL), anything not starting with
`http://` or `https://` is rejected, and a missing trailing `/` is
appended. -/
theorem C6_normalization :
    normalize_url_arg "tsinghua" = some "https://pypi.tuna.tsinghua.edu.cn/simple/" ∧
    (∀ u : String, strToLower u = "tsinghua" →
      normalize_url_arg u = some "https://pypi.tuna.tsinghua.edu.cn/simple/") ∧
    (∀ u : String, mirrorLookup (strToLower u) = none →
      ¬(strStartsWith u "http://" = true ∨ strStartsWith u "https://" = true) →
      normalize_url_arg u = none) ∧
    (∀ u : String, mirrorLookup (strToLower u) = none →
      (strStartsWith u "http://" = true ∨ strStartsWith u "https://" = true) →
      strEndsWith u "/" = true → normalize_url_arg u = some u) ∧
    (∀ u : String, mirrorLookup (strToLower u) = none →
      (strStartsWith u "http://" = true ∨ strStartsWith u "https://" = true) →
      strEndsWith u "/" = false → normalize_url_arg u = some (u ++ "/")) := by
  refine ⟨rfl, ?_, ?_, ?_, ?_⟩
  · intro u h
    unfold normalize_url_arg
    rw [h]
    rfl
  · intro u hm hs
    unfold normalize_url_arg
    rw [hm]
    dsimp only
    have hcond : ¬ ((strStartsWith u "http://" || strStartsWith u "https://") = true) := by
      simp only [Bool.or_eq_true]
      exact hs
    rw [if_neg hcond]
  · intro u hm hs he
    unfold normalize_url_arg
    rw [hm]
    dsimp only
    have hcond : (strStartsWith u "http://" || strStartsWith u "https://") = true := by
      simp only [Bool.or_eq_true]
      exact hs
    rw [if_pos hcond, if_pos he]
  · intro u hm hs he
    unfold normalize_url_arg
    rw [hm]
    dsimp only
    have hcond : (strStartsWith u "http://" || strStartsWith u "https://") = true := by
      simp only [Bool.or_eq_true]
      exact hs
    have hne : ¬ (strEndsWith u "/" = true) := by
      rw [he]
      exact Bool.false_ne_true
    rw [if_pos hcond, if_neg hne]

/-- Witness for C6 on concrete inputs: a mixed-case shortcut, a rejected
`ftp://` URL, an already-slashed URL, and a slash-less URL. -/
theorem C6_normalization_witness :
    normalize_url_arg "TsingHua" = some "https://pypi.tuna.tsinghua.edu.cn/simple/" ∧
    normalize_url_arg "ftp://mirror.example.com/simple/" = none ∧
    normalize_url_arg "https://example.com/simple/" = some "https://example.com/simple/" ∧
    normalize_url_arg "https://example.com/simple" = some ("https://example.com/simple" ++ "/") :=
  ⟨(C6_normalization).2.1 "TsingHua" (by decide),
   (C6_normalization).2.2.1 "ftp://mirror.example.com/simple/" (by decide) (by decide),
   (C6_normalization).2.2.2.1 "https://example.com/simple/" (by decide)
     (Or.inr (by decide)) (by decide),
   (C6_normalization).2.2.2.2 "https://example.com/simple" (by decide)
     (Or.inr (by decide)) (by decide)⟩

/-- C7 counterexample: the claim quantifies over every URL X, but for the
scheme-valid percent-encoded `http://h/a%20b/` already the *first*
`set_index_url` call raises `ValueError` in `config.set`
(`BasicInterpolation.before_set`), so no configuration state results and
zero history entries are appended — not two. -/
theorem C7_counterexample :
    set_index_url ⟨none, HistFile.missing, none⟩ "http://h/a%20b/" "t1" true
        = Except.error () ∧
    strStartsWith "http://h/a%20b/" "http://" = true :=
  ⟨rfl, rfl⟩

/-- C7 (amended): for every URL X on which the two `set_index_url` calls
complete without raising (in particular X has no stray percent and the
history file is not non-list JSON), setting X twice yields the same single
configuration state as setting it once, and the history gains the two
entries (subject to the 50-entry cap). -/
theorem C7_set_twice_idempotent (s : PipState) (url ts1 ts2 : String) (s1 s2 : PipState)
    (h1 : set_index_url s url ts1 true = Except.ok s1)
    (h2 : set_index_url s1 url ts2 true = Except.ok s2) :
    s2.conf = s1.conf ∧
    ∃ h0, loadHistory s.hist = some h0 ∧
      loadHistory s2.hist = some (lastN 50 (h0 ++
        [⟨ts1, url, url == DEFAULT_INDEX⟩, ⟨ts2, url, url == DEFAULT_INDEX⟩])) ∧
      (loadHistory s2.hist).map List.length = some (min 50 (h0.length + 2)) := by
  obtain ⟨c, h0, hcr, hok, hl, hs1⟩ := set_index_url_ok s url ts1 true s1 h1
  obtain ⟨c2, h02, hcr2, hok2, hl2, hs2⟩ := set_index_url_ok s1 url ts2 true s2 h2
  have hc2 : c2 = setIndexConf c url true := by
    rw [hs1] at hcr2
    exact (Except.ok.inj hcr2).symm
  have hh02 : h02 = histPush h0 ⟨ts1, url, url == DEFAULT_INDEX⟩ := by
    rw [hs1] at hl2
    exact (Option.some.inj hl2).symm
  rw [hc2, hh02] at hs2
  refine ⟨?_, h0, hl, ?_, ?_⟩
  · rw [hs2, hs1]
    show some (ConfContent.parsed (setIndexConf (setIndexConf c url true) url true))
      = some (ConfContent.parsed (setIndexConf c url true))
    rw [setIndexConf_idem]
  · rw [hs2]
    show some (histPush (histPush h0 ⟨ts1, url, url == DEFAULT_INDEX⟩)
      ⟨ts2, url, url == DEFAULT_INDEX⟩) = _
    rw [histPush_eq_lastN, histPush_eq_lastN, lastN_lastN_append, List.append_assoc]
    rfl
  · rw [hs2]
    show (some (histPush (histPush h0 ⟨ts1, url, url == DEFAULT_INDEX⟩)
      ⟨ts2, url, url == DEFAULT_INDEX⟩)).map List.length = _
    rw [Option.map_some']
    congr 1
    rw [histPush_eq_lastN, histPush_eq_lastN, lastN_lastN_append, lastN_length,
      List.length_append, List.length_append]
    rfl

/-- Witness for C7 (amended): two sets of `http://h/` from a fresh state. -/
theorem C7_set_twice_idempotent_witness :
    (⟨some (ConfContent.parsed
        ⟨[("global", [("index-url", "http://h/"), ("trusted-host", "h")])]⟩),
      HistFile.valid [⟨"t1", "http://h/", false⟩, ⟨"t2", "http://h/", false⟩],
      none⟩ : PipState).conf =
      (⟨some (ConfContent.parsed
          ⟨[("global", [("index-url", "http://h/"), ("trusted-host", "h")])]⟩),
        HistFile.valid [⟨"t1", "http://h/", false⟩], none⟩ : PipState).conf ∧
    ∃ h0, loadHistory (HistFile.missing) = some h0 ∧
      loadHistory (HistFile.valid [⟨"t1", "http://h/", false⟩, ⟨"t2", "http://h/", false⟩]) =
        some (lastN 50 (h0 ++ [⟨"t1", "http://h/", false⟩, ⟨"t2", "http://h/", false⟩])) ∧
      (loadHistory (HistFile.valid
          [⟨"t1", "http://h/", false⟩, ⟨"t2", "http://h/", false⟩])).map List.length =
        some (min 50 (h0.length + 2)) :=
  C7_set_twice_idempotent ⟨none, HistFile.missing, none⟩ "http://h/" "t1" "t2"
    ⟨some (ConfContent.parsed
        ⟨[("global", [("index-url", "http://h/"), ("trusted-host", "h")])]⟩),
      HistFile.valid [⟨"t1", "http://h/", false⟩], none⟩
    ⟨some (ConfContent.parsed
        ⟨[("global", [("index-url", "http://h/"), ("trusted-host", "h")])]⟩),
      HistFile.valid [⟨"t1", "http://h/", false⟩, ⟨"t2", "http://h/", false⟩], none⟩
    rfl rfl

/-- C9 counterexample: the two `OsEnv` values below agree on every
environment variable (`XDG_CONFIG_HOME` unset, same home) and on the OS
identity (`darwin`), yet every computed path differs, because
`get_pip_conf_dir` also consults the filesystem
(`os.path.exists` on `~/Library/Application Support/pip`, cli.py line 50):
the paths are not a function of environment and OS identity alone. -/
theorem C9_counterexample :
    get_pip_conf_dir ⟨"", "/Users/u", "darwin", true⟩ ≠
      get_pip_conf_dir ⟨"", "/Users/u", "darwin", false⟩ ∧
    get_pip_conf_path ⟨"", "/Users/u", "darwin", true⟩ ≠
      get_pip_conf_path ⟨"", "/Users/u", "darwin", false⟩ ∧
    get_history_path ⟨"", "/Users/u", "darwin", true⟩ ≠
      get_history_path ⟨"", "/Users/u", "darwin", false⟩ ∧
    get_backup_path ⟨"", "/Users/u", "darwin", true⟩ ≠
      get_backup_path ⟨"", "/Users/u", "darwin", false⟩ :=
  ⟨by decide, by decide, by decide, by decide⟩

/-- C9 (amended): path resolution is deterministic and side-effect free as
a function of the environment, the OS identity and — only on darwin with
`XDG_CONFIG_HOME` unset — the existence of `~/Library/Application
Support/pip` on disk; away from that darwin case it depends on environment
and OS identity alone, and the derived paths have the documented shapes. -/
theorem C9_paths_amended (e1 e2 : OsEnv)
    (hx : e1.xdg_config_home = e2.xdg_config_home)
    (hh : e1.home = e2.home) (hp : e1.platform = e2.platform) :
    (e1.fs_mac_dir_exists = e2.fs_mac_dir_exists →
      get_pip_conf_dir e1 = get_pip_conf_dir e2 ∧
      get_pip_conf_path e1 = get_pip_conf_path e2 ∧
      get_history_path e1 = get_history_path e2 ∧
      get_backup_path e1 = get_backup_path e2) ∧
    ((e1.platform ≠ "darwin" ∨ e1.xdg_config_home ≠ "") →
      get_pip_conf_dir e1 = get_pip_conf_dir e2 ∧
      get_pip_conf_path e1 = get_pip_conf_path e2 ∧
      get_history_path e1 = get_history_path e2 ∧
      get_backup_path e1 = get_backup_path e2) ∧
    get_backup_path e1 = get_pip_conf_path e1 ++ ".backup" ∧
    get_history_path e1 = pathJoin (get_pip_conf_dir e1) "switch-pip-history.json" := by
  obtain ⟨x1, h1, p1, f1⟩ := e1
  obtain ⟨x2, h2, p2, f2⟩ := e2
  dsimp only at hx hh hp
  subst hx
  subst hh
  subst hp
  refine ⟨?_, ?_, rfl, rfl⟩
  · intro hf
    dsimp only at hf
    subst hf
    exact ⟨rfl, rfl, rfl, rfl⟩
  · intro hcase
    dsimp only at hcase
    have hdir : get_pip_conf_dir ⟨x1, h1, p1, f1⟩ = get_pip_conf_dir ⟨x1, h1, p1, f2⟩ := by
      unfold get_pip_conf_dir
      dsimp only
      by_cases hx0 : x1 ≠ ""
      · rw [if_pos hx0, if_pos hx0]
      · rw [if_neg hx0, if_neg hx0]
        rcases hcase with hpd | hxne
        · rw [if_neg hpd, if_neg hpd]
        · exact absurd hxne hx0
    refine ⟨hdir, ?_, ?_, ?_⟩
    · unfold get_pip_conf_path
      rw [hdir]
    · unfold get_history_path
      rw [hdir]
    · unfold get_backup_path get_pip_conf_path
      rw [hdir]

/-- Witness for C9 (amended) on two non-darwin environments that differ
only in the filesystem bit. -/
theorem C9_paths_amended_witness :
    get_pip_conf_dir ⟨"", "/home/u", "linux", true⟩ =
      get_pip_conf_dir ⟨"", "/home/u", "linux", false⟩ ∧
    get_backup_path ⟨"", "/home/u", "linux", true⟩ =
      get_pip_conf_path ⟨"", "/home/u", "linux", true⟩ ++ ".backup" :=
  ⟨((C9_paths_amended ⟨"", "/home/u", "linux", true⟩ ⟨"", "/home/u", "linux", false⟩
      rfl rfl rfl).2.1 (Or.inl (by decide))).1,
   (C9_paths_amended ⟨"", "/home/u", "linux", true⟩ ⟨"", "/home/u", "linux", false⟩
      rfl rfl rfl).2.2.1⟩
